import Mathlib

/-!
Shallow embedding of the libparserutils core (charset alias table, charset
codec dispatch, input filter, input stream) together with proofs about the
properties claimed of it.

Byte strings are modelled as `List Nat` with every element a byte value
(`0 ≤ b < 256` where it matters).  C strings (NUL-terminated) are modelled
as the list of their bytes before the terminator; reading the terminator
is modelled by treating the end of the list as the byte `0`.
Machine arithmetic on `uint32_t` is modelled by `% 2^32` at the points where
the C can overflow.
-/

namespace LibParserUtils

/-- The `parserutils_error` codes (from `parserutils/errors.h`). -/
inductive Err where
  | ok
  | nomem
  | badparm
  | invalid
  | filenotfound
  | needdata
  | badencoding
  | eofcode
deriving DecidableEq, Repr

/-- The `IS_PUNCT_OR_SPACE(x)` from `src/charset/aliases.c`: bytes skipped by the
punctuation-insensitive comparison and by the name hash. -/
def IS_PUNCT_OR_SPACE (x : Nat) : Bool :=
  (0x09 ≤ x && x ≤ 0x0D) || (0x20 ≤ x && x ≤ 0x2F) ||
  (0x3A ≤ x && x ≤ 0x40) || (0x5B ≤ x && x ≤ 0x60) ||
  (0x7B ≤ x && x ≤ 0x7E)

/-- ASCII `tolower` as used by `aliascmp` (C locale): maps `A`–`Z` to
`a`–`z` and leaves every other byte unchanged. -/
def tolowerB (c : Nat) : Nat :=
  if 0x41 ≤ c ∧ c ≤ 0x5A then c + 0x20 else c

/-- The `while (true)` loop of `aliascmp` from `src/charset/aliases.c`,
written as a recursion structural in the length-delimited query `s2`
(the query's punctuation bytes are skipped one at a time; the C skips them
in an inner loop, with identical effect).  `s1` is the NUL-terminated
stored name; reading `*s1` at the end of `s1` yields the terminator `0`. -/
def aliascmpLoop : List Nat → List Nat → Nat
  | s1, [] => if s1.dropWhile IS_PUNCT_OR_SPACE = [] then 0 else 1
  | s1, c :: s2 =>
      if IS_PUNCT_OR_SPACE c then aliascmpLoop s1 s2
      else if tolowerB ((s1.dropWhile IS_PUNCT_OR_SPACE).headD 0) ≠ tolowerB c then 1
      else aliascmpLoop (s1.dropWhile IS_PUNCT_OR_SPACE).tail s2

/-- The `aliascmp(s1, s2, s2_len)` from `src/charset/aliases.c`: `0` when the
names compare equal skipping punctuation/whitespace and ignoring ASCII case,
`1` otherwise.  The `s1 == NULL` check is not modelled (no NULL lists). -/
def aliascmp (s1 s2 : List Nat) : Nat :=
  if s2.length = 0 then 1 else aliascmpLoop s1 s2

/-- The `HASH_SIZE` from `src/charset/aliases.c`. -/
def HASH_SIZE : Nat := 43

/-- One step of the hash loop of `parserutils_charset_hash_val`:
skipped bytes leave `h` unchanged; other bytes fold as
`h = (h * 33) ^ (b & ~0x20)` in `uint32_t` arithmetic. -/
def hashStep (h b : Nat) : Nat :=
  if IS_PUNCT_OR_SPACE b then h else ((h * 33) % 4294967296) ^^^ (b &&& 0xDF)

/-- The `parserutils_charset_hash_val(alias, len)` from `src/charset/aliases.c`:
djb2 variant over the non-skipped bytes, reduced `mod HASH_SIZE`. -/
def parserutils_charset_hash_val (s : List Nat) : Nat :=
  (s.foldl hashStep 5381) % HASH_SIZE

/-! ### Lemmas about `aliascmp` and the hash -/

/-- The non-skipped bytes of a name, each transformed by `f`. -/
def filterStream (f : Nat → Nat) (s : List Nat) : List Nat :=
  (s.filter (fun b => !IS_PUNCT_OR_SPACE b)).map f

/-- The byte image folded into the hash: the filtered byte stream of a name,
with each byte masked by `& ~0x20`. -/
def hashStream (s : List Nat) : List Nat :=
  filterStream (fun b => b &&& 0xDF) s

/-- The byte image compared by `aliascmp`: the filtered byte stream of a
name, lower-cased. -/
def lowStream (s : List Nat) : List Nat :=
  filterStream tolowerB s

/-! ### The alias table (`src/charset/aliases.c`) -/

/-- A canonical-form record (`parserutils_charset_aliases_canon`): MIB enum
value and canonical name.  The intrusive `next` chain pointer is represented
by the position of the record in its bucket list. -/
structure CanonRec where
  mib_enum : Nat
  name : List Nat
deriving DecidableEq, Repr

/-- The two fixed-size bucket arrays `canon_tab` and `alias_tab`.  An alias
entry (`struct alias`) is its name together with the canonical record its
`canon` pointer refers to. -/
structure AliasTable where
  canon_tab : List (List CanonRec)
  alias_tab : List (List (List Nat × CanonRec))
deriving DecidableEq, Repr

/-- The zero-initialised bucket arrays. -/
def emptyAliasTable : AliasTable :=
  ⟨List.replicate HASH_SIZE [], List.replicate HASH_SIZE []⟩

/-- The `parserutils_charset_create_canon`: allocate a canonical record and
prepend it to the bucket chain at the hash of its name. -/
def parserutils_charset_create_canon (canon : List Nat) (mibenum : Nat)
    (t : AliasTable) : CanonRec × AliasTable :=
  let c : CanonRec := ⟨mibenum, canon⟩
  let h := parserutils_charset_hash_val canon
  (c, { t with canon_tab := t.canon_tab.set h (c :: t.canon_tab.getD h []) })

/-- The `parserutils_charset_create_alias`: allocate an alias record pointing at
canonical `c` and prepend it to the bucket chain at the hash of its name. -/
def parserutils_charset_create_alias (aname : List Nat) (c : CanonRec)
    (t : AliasTable) : AliasTable :=
  let h := parserutils_charset_hash_val aname
  { t with alias_tab := t.alias_tab.set h ((aname, c) :: t.alias_tab.getD h []) }

/-- The `parserutils_charset_alias_canonicalise`: hash the query, search the
canonical chain of that bucket first, then the alias chain; return the
canonical record found (or the found alias's canonical), else none. -/
def parserutils_charset_alias_canonicalise (t : AliasTable)
    (aname : List Nat) : Option CanonRec :=
  let h := parserutils_charset_hash_val aname
  match (t.canon_tab.getD h []).find? (fun c => aliascmp c.name aname == 0) with
  | some c => some c
  | none =>
      ((t.alias_tab.getD h []).find?
        (fun a => aliascmp a.1 aname == 0)).map Prod.snd

/-- The `parserutils_charset_mibenum_from_name`: the MIB enum of the canonical
form of a name, or `0` when the name is unknown. -/
def parserutils_charset_mibenum_from_name (t : AliasTable)
    (aname : List Nat) : Nat :=
  match parserutils_charset_alias_canonicalise t aname with
  | none => 0
  | some c => c.mib_enum

/-- The `parserutils_charset_mibenum_to_name`: linear scan of the canonical
buckets, in bucket order then chain order, for the first record with the
given MIB enum. -/
def parserutils_charset_mibenum_to_name (t : AliasTable)
    (mibenum : Nat) : Option (List Nat) :=
  (t.canon_tab.flatten.find? (fun c => c.mib_enum == mibenum)).map CanonRec.name

/-- All canonical records registered in the table. -/
def canonList (t : AliasTable) : List CanonRec := t.canon_tab.flatten

/-- All alias records registered in the table. -/
def aliasList (t : AliasTable) : List (List Nat × CanonRec) := t.alias_tab.flatten

/-- Every canonical record sits in the bucket indexed by the hash of its
name (an invariant of table construction). -/
def canonBucketsOK (t : AliasTable) : Bool :=
  (List.range t.canon_tab.length).all (fun h =>
    (t.canon_tab.getD h []).all
      (fun c => parserutils_charset_hash_val c.name == h))

/-- Every alias record sits in the bucket indexed by the hash of its name. -/
def aliasBucketsOK (t : AliasTable) : Bool :=
  (List.range t.alias_tab.length).all (fun h =>
    (t.alias_tab.getD h []).all
      (fun a => parserutils_charset_hash_val a.1 == h))

/-- No two distinct canonical records have `aliascmp`-equal names. -/
def canonNamesDistinct (t : AliasTable) : Bool :=
  (canonList t).all (fun c => (canonList t).all
    (fun c' => aliascmp c.name c'.name != 0 || c == c'))

/-- A canonical whose name is `aliascmp`-equal to an alias name is that
alias's canonical. -/
def canonAliasConsistent (t : AliasTable) : Bool :=
  (canonList t).all (fun c => (aliasList t).all
    (fun a => aliascmp c.name a.1 != 0 || c == a.2))

/-- Aliases with `aliascmp`-equal names share their canonical. -/
def aliasCanonsConsistent (t : AliasTable) : Bool :=
  (aliasList t).all (fun a => (aliasList t).all
    (fun a' => aliascmp a.1 a'.1 != 0 || a.2 == a'.2))

/-! ### Codecs and the codec registry (`src/charset/codec.c`) -/

/-- The `parserutils_charset_codec_errormode`. -/
inductive ErrorMode where
  | strict
  | loose
  | translit
deriving DecidableEq, Repr

/-- The base part of `parserutils_charset_codec`: MIB enum, error mode, and
the handler's private state (of abstract type `σ`).  The vtable is passed
separately to the operations that dispatch through it. -/
structure Codec (σ : Type) where
  mibenum : Nat
  errormode : ErrorMode
  state : σ
deriving DecidableEq, Repr

/-- A `parserutils_charset_handler`: the `handles_charset` predicate and the
`create` constructor. -/
structure Handler (σ : Type) where
  handles_charset : List Nat → Bool
  create : List Nat → Option (Codec σ)

/-- The result of a codec `encode`/`decode` call, with the moving-cursor
convention: `srcRem` is the unconsumed tail of the source, `out` the bytes
written to the destination, `st` the codec's updated private state. -/
structure EncResult (σ : Type) where
  err : Err
  srcRem : List Nat
  out : List Nat
  st : σ
deriving DecidableEq, Repr

/-- The behaviour of a codec operation (the function a handler's vtable
entry points at): state, source bytes and destination space in. -/
def CodecFn (σ : Type) : Type := Codec σ → List Nat → Nat → EncResult σ

/-- The `parserutils_charset_codec_create` from `src/charset/codec.c`:
canonicalise the charset name, pick the first handler claiming the
canonical name, instantiate it, then overwrite the new codec's `mibenum`
with the canonical MIB enum and its error mode with `LOOSE`. -/
def parserutils_charset_codec_create (t : AliasTable)
    (handlers : List (Handler σ)) (charset : List Nat) : Option (Codec σ) :=
  match parserutils_charset_alias_canonicalise t charset with
  | none => none
  | some canon =>
    match handlers.find? (fun h => h.handles_charset canon.name) with
    | none => none
    | some h =>
      match h.create canon.name with
      | none => none
      | some codec =>
          some { codec with mibenum := canon.mib_enum,
                            errormode := ErrorMode.loose }

/-! ### The input filter (`src/input/filter.c`, non-iconv configuration) -/

/-- The `struct parserutils_filter`: the two codecs, the leftover-pivot state
and the current encoding setting.  `pivot_left` models the pair
`pivot_left`/`pivot_len` (the retained tail of the pivot buffer);
`sizeof(pivot_buf)` is 256 bytes (64 `uint32_t`). -/
structure Filter (ρ ω : Type) where
  read_codec : Option (Codec ρ)
  write_codec : Option (Codec ω)
  leftover : Bool
  pivot_left : List Nat
  settings_encoding : Nat
deriving DecidableEq, Repr

/-- The `filter_set_encoding` from `src/input/filter.c`: unknown name is
`INVALID`; same MIB enum is a no-op `OK`; otherwise the read codec is
destroyed and recreated (`NOMEM` if creation fails, leaving the read codec
empty), and the encoding setting updated.  The write codec is untouched. -/
def filter_set_encoding (t : AliasTable) (handlers : List (Handler ρ))
    (f : Filter ρ ω) (enc : List Nat) : Err × Filter ρ ω :=
  let mibenum := parserutils_charset_mibenum_from_name t enc
  if mibenum = 0 then (Err.invalid, f)
  else if f.settings_encoding = mibenum then (Err.ok, f)
  else
    match parserutils_charset_codec_create t handlers enc with
    | none => (Err.nomem, { f with read_codec := none })
    | some c =>
        (Err.ok, { f with read_codec := some c, settings_encoding := mibenum })

/-- The byte string "UTF-8". -/
def strUTF8 : List Nat := [0x55, 0x54, 0x46, 0x2D, 0x38]

/-- The `parserutils_filter_create` (non-iconv): zero the pivot state, apply
`filter_set_defaults` (encoding setting `0`, then
`filter_set_encoding(input, "UTF-8")`), then create the write codec for the
requested internal encoding.  `hr`/`hw` are the handler table as seen at
the read and write codecs' private state types. -/
def parserutils_filter_create (t : AliasTable) (hr : List (Handler ρ))
    (hw : List (Handler ω)) (int_enc : List Nat) : Option (Filter ρ ω) :=
  let f0 : Filter ρ ω :=
    { read_codec := none, write_codec := none, leftover := false,
      pivot_left := [], settings_encoding := 0 }
  let r := filter_set_encoding t hr f0 strUTF8
  if r.1 ≠ Err.ok then none
  else
    match parserutils_charset_codec_create t hw int_enc with
    | none => none
    | some wc => some { r.2 with write_codec := some wc }

/-- The result of `parserutils_filter_process_chunk`: error code, the
unconsumed source tail (`*data`/`*len`), the bytes written to the output
(`*output`/`*outlen`), and the updated filter. -/
structure PCResult (ρ ω : Type) where
  err : Err
  srcRem : List Nat
  written : List Nat
  filt : Filter ρ ω
deriving DecidableEq, Repr

/-- The `while (*len > 0)` loop of `parserutils_filter_process_chunk`:
decode up to 256 bytes of pivot, encode the populated pivot portion, and
stop on errors as the C does.  `fuel` bounds the number of iterations
(the C loop's termination relies on the codec contract); `none` models
running out of fuel, or a NULL codec dereference. -/
def pcLoop (dec : CodecFn ρ) (enc : CodecFn ω) :
    Nat → Filter ρ ω → List Nat → Nat → List Nat → Option (PCResult ρ ω)
  | _, f, [], _, acc => some ⟨Err.ok, [], acc, f⟩
  | 0, _, _, _, _ => none
  | fuel + 1, f, src, dsts, acc =>
    match f.read_codec, f.write_codec with
    | some rc, some wc =>
      let rres := dec rc src 256
      let f1 := { f with read_codec := some { rc with state := rres.st } }
      if rres.out.length > 0 then
        let wres := enc wc rres.out dsts
        let f2 := { f1 with write_codec := some { wc with state := wres.st } }
        if wres.err ≠ Err.ok then
          some ⟨wres.err, rres.srcRem, acc ++ wres.out,
            { f2 with leftover := true, pivot_left := wres.srcRem }⟩
        else if rres.err ≠ Err.ok ∧ rres.err ≠ Err.nomem then
          some ⟨rres.err, rres.srcRem, acc ++ wres.out, f2⟩
        else
          pcLoop dec enc fuel f2 rres.srcRem (dsts - wres.out.length)
            (acc ++ wres.out)
      else
        if rres.err ≠ Err.ok ∧ rres.err ≠ Err.nomem then
          some ⟨rres.err, rres.srcRem, acc, f1⟩
        else pcLoop dec enc fuel f1 rres.srcRem dsts acc
    | _, _ => none

/-- The `parserutils_filter_process_chunk` (non-iconv): if leftover pivot data
remains from the previous call, re-encode it first and return immediately
on failure (the caller's source is untouched); otherwise clear the
leftover state and run the decode/encode loop. -/
def parserutils_filter_process_chunk (dec : CodecFn ρ) (enc : CodecFn ω)
    (fuel : Nat) (f : Filter ρ ω) (src : List Nat) (dsts : Nat) :
    Option (PCResult ρ ω) :=
  match f.write_codec with
  | none => none
  | some wc =>
    if f.leftover then
      let wres := enc wc f.pivot_left dsts
      let f1 := { f with write_codec := some { wc with state := wres.st },
                         pivot_left := wres.srcRem }
      if wres.err ≠ Err.ok then
        some ⟨wres.err, src, wres.out, f1⟩
      else
        pcLoop dec enc fuel
          { f1 with leftover := false, pivot_left := [] } src
          (dsts - wres.out.length) wres.out
    else pcLoop dec enc fuel f src dsts []

/-! ### Concrete instances used by the witnesses -/

/-- The byte string "utf8". -/
def strutf8 : List Nat := [0x75, 0x74, 0x66, 0x38]

/-- The byte string "ISO-8859-1". -/
def strISO8859 : List Nat :=
  [0x49, 0x53, 0x4F, 0x2D, 0x38, 0x38, 0x35, 0x39, 0x2D, 0x31]

/-- A handler that accepts every charset and creates a fresh codec with
unit private state; used to instantiate the abstract handler table. -/
def trivHandler : Handler Unit :=
  { handles_charset := fun _ => true,
    create := fun _ => some ⟨0, ErrorMode.strict, ()⟩ }

/-- A concrete alias table: canonical "UTF-8" (MIB 106) with alias "utf8",
and canonical "ISO-8859-1" (MIB 4). -/
def tbl1 : AliasTable :=
  let p := parserutils_charset_create_canon strUTF8 106 emptyAliasTable
  let t1 := parserutils_charset_create_alias strutf8 p.1 p.2
  (parserutils_charset_create_canon strISO8859 4 t1).2

/-- A concrete filter value used in witnesses. -/
def fwit : Filter Unit Unit :=
  { read_codec := some ⟨106, ErrorMode.loose, ()⟩,
    write_codec := some ⟨106, ErrorMode.loose, ()⟩,
    leftover := false, pivot_left := [], settings_encoding := 106 }

/-- An encode behaviour that always reports destination exhaustion. -/
def encNomem : CodecFn Unit := fun _ s _ => ⟨Err.nomem, s, [], ()⟩

/-- A decode behaviour that consumes everything silently. -/
def decAll : CodecFn Unit := fun _ _ _ => ⟨Err.ok, [], [], ()⟩

/-- A concrete filter in the leftover state. -/
def fleft : Filter Unit Unit :=
  { read_codec := some ⟨106, ErrorMode.loose, ()⟩,
    write_codec := some ⟨106, ErrorMode.loose, ()⟩,
    leftover := true, pivot_left := [0, 0, 0, 0x41], settings_encoding := 106 }

/-! ### BOM stripping (`src/input/inputstream.c`) -/

/-- The MIB enum values looked up from the alias table by
`parserutils_inputstream_strip_bom` (the untagged UTF-16/UTF-32 values are
also looked up by the C but never used in the branch chain). -/
structure BomMibs where
  utf8 : Nat
  utf16be : Nat
  utf16le : Nat
  utf32be : Nat
  utf32le : Nat
deriving DecidableEq, Repr

/-- The `parserutils_inputstream_strip_bom`: an `else if` chain on the exact
MIB enum; each arm checks the buffer length and leading bytes and discards
the BOM prefix when they match.  `parserutils_buffer_discard(buf, 0, n)`
is dropping the first `n` bytes. -/
def parserutils_inputstream_strip_bom (m : BomMibs) (mib : Nat)
    (buf : List Nat) : List Nat :=
  if mib = m.utf8 then
    (if 3 ≤ buf.length ∧ buf.getD 0 0 = 0xEF ∧ buf.getD 1 0 = 0xBB ∧
        buf.getD 2 0 = 0xBF then buf.drop 3 else buf)
  else if mib = m.utf16be then
    (if 2 ≤ buf.length ∧ buf.getD 0 0 = 0xFE ∧ buf.getD 1 0 = 0xFF
     then buf.drop 2 else buf)
  else if mib = m.utf16le then
    (if 2 ≤ buf.length ∧ buf.getD 0 0 = 0xFF ∧ buf.getD 1 0 = 0xFE
     then buf.drop 2 else buf)
  else if mib = m.utf32be then
    (if 4 ≤ buf.length ∧ buf.getD 0 0 = 0x00 ∧ buf.getD 1 0 = 0x00 ∧
        buf.getD 2 0 = 0xFE ∧ buf.getD 3 0 = 0xFF then buf.drop 4 else buf)
  else if mib = m.utf32le then
    (if 4 ≤ buf.length ∧ buf.getD 0 0 = 0xFF ∧ buf.getD 1 0 = 0xFE ∧
        buf.getD 2 0 = 0x00 ∧ buf.getD 3 0 = 0x00 then buf.drop 4 else buf)
  else buf

/-- The BOM stripping behaviour as the specification words it: the BOM is
removed exactly when the MIB is one of the five listed encodings and the
buffer begins with that encoding's exact BOM prefix. -/
def stripBomSpec (m : BomMibs) (mib : Nat) (buf : List Nat) : List Nat :=
  if mib = m.utf8 ∧ buf.take 3 = [0xEF, 0xBB, 0xBF] then buf.drop 3
  else if mib = m.utf16be ∧ buf.take 2 = [0xFE, 0xFF] then buf.drop 2
  else if mib = m.utf16le ∧ buf.take 2 = [0xFF, 0xFE] then buf.drop 2
  else if mib = m.utf32be ∧ buf.take 4 = [0x00, 0x00, 0xFE, 0xFF] then
    buf.drop 4
  else if mib = m.utf32le ∧ buf.take 4 = [0xFF, 0xFE, 0x00, 0x00] then
    buf.drop 4
  else buf

/-! ### The input stream (`src/input/inputstream.c` and its header) -/

/-- A `parserutils_buffer`: live contents (`data`, of length `length`) and
allocation size. -/
structure Buffer where
  data : List Nat
  allocated : Nat
deriving DecidableEq, Repr

/-- The input stream (public part from the header plus
`parserutils_inputstream_private`); the filter's codec behaviours are
passed to the operations that need them, mirroring the vtable dispatch. -/
structure Stream (ρ ω : Type) where
  utf8 : Buffer
  cursor : Nat
  had_eof : Bool
  raw : List Nat
  done_first_chunk : Bool
  mibenum : Nat
  encsrc : Nat
  filt : Filter ρ ω
deriving DecidableEq, Repr

/-- The `parserutils_inputstream_advance` from the inputstream header: abort
(`none`) when `bytes > utf8->length - cursor` (size_t subtraction; the
stream keeps `cursor ≤ length`), then return unchanged when the cursor is
at the end, else move the cursor forward. -/
def parserutils_inputstream_advance (s : Stream ρ ω) (bytes : Nat) :
    Option (Stream ρ ω) :=
  if bytes > s.utf8.data.length - s.cursor then none
  else if s.cursor = s.utf8.data.length then some s
  else some { s with cursor := s.cursor + bytes }

/-- A concrete stream whose cursor sits at the end of an empty UTF-8
buffer. -/
def streamAtEnd : Stream Unit Unit :=
  { utf8 := ⟨[], 0⟩, cursor := 0, had_eof := false, raw := [],
    done_first_chunk := false, mibenum := 0, encsrc := 0, filt := fwit }

/-- A concrete stream mid-buffer. -/
def streamMid : Stream Unit Unit :=
  { utf8 := ⟨[0x41, 0x42, 0x43], 4⟩, cursor := 1, had_eof := false, raw := [],
    done_first_chunk := true, mibenum := 106, encsrc := 0, filt := fwit }

/-- The byte string "UTF-16BE". -/
def strUTF16BE : List Nat := [0x55, 0x54, 0x46, 0x2D, 0x31, 0x36, 0x42, 0x45]

/-- The byte string "UTF-16LE". -/
def strUTF16LE : List Nat := [0x55, 0x54, 0x46, 0x2D, 0x31, 0x36, 0x4C, 0x45]

/-- The byte string "UTF-32BE". -/
def strUTF32BE : List Nat := [0x55, 0x54, 0x46, 0x2D, 0x33, 0x32, 0x42, 0x45]

/-- The byte string "UTF-32LE". -/
def strUTF32LE : List Nat := [0x55, 0x54, 0x46, 0x2D, 0x33, 0x32, 0x4C, 0x45]

/-- The `strip_bom` with its MIB enums resolved from the alias table, as the C
does through its static locals. -/
def strip_bomT (t : AliasTable) (mib : Nat) (buf : List Nat) : List Nat :=
  parserutils_inputstream_strip_bom
    ⟨parserutils_charset_mibenum_from_name t strUTF8,
     parserutils_charset_mibenum_from_name t strUTF16BE,
     parserutils_charset_mibenum_from_name t strUTF16LE,
     parserutils_charset_mibenum_from_name t strUTF32BE,
     parserutils_charset_mibenum_from_name t strUTF32LE⟩ mib buf

/-- A charset detection callback (`parserutils_charset_detect_func`):
returns an error code and, on success, the detected MIB enum and encoding
source written through the out-parameters. -/
def DetectFn : Type := List Nat → Err × Nat × Nat

/-- Modelled from the spec: `parserutils_charset_utf8_char_byte_length`
(`src/charset/utf8.c` is not among the sources).  Per §4.2.1, the sequence
length is determined by the lead byte (`0xxxxxxx`→1, `110xxxxx`→2,
`1110xxxx`→3, `11110xxx`→4, any other lead byte ill-formed), and the
routine reports `NEEDDATA` when the buffer ends mid-sequence. -/
def parserutils_charset_utf8_char_byte_length (bytes : List Nat) :
    Err × Nat :=
  match bytes with
  | [] => (Err.needdata, 0)
  | b :: rest =>
    if b < 0x80 then (Err.ok, 1)
    else if 0xC0 ≤ b ∧ b ≤ 0xDF then
      (if rest.length + 1 < 2 then (Err.needdata, 0) else (Err.ok, 2))
    else if 0xE0 ≤ b ∧ b ≤ 0xEF then
      (if rest.length + 1 < 3 then (Err.needdata, 0) else (Err.ok, 3))
    else if 0xF0 ≤ b ∧ b ≤ 0xF7 then
      (if rest.length + 1 < 4 then (Err.needdata, 0) else (Err.ok, 4))
    else (Err.badencoding, 0)

/-- The buffer-filling stage of `parserutils_inputstream_refill_buffer`:
slide or reuse the UTF-8 buffer, grow it when the retained part exceeds
half the allocation (`parserutils_buffer_grow`, modelled from the spec as
doubling), run the filter over the raw data, discard the consumed raw
prefix and reset the cursor.  `none` models an abort or fuel exhaustion
inside the filter. -/
def refillFill (dec : CodecFn ρ) (enc : CodecFn ω) (fuel : Nat)
    (s : Stream ρ ω) : Option (Err × Stream ρ ω) :=
  if s.cursor = s.utf8.data.length then
    match parserutils_filter_process_chunk dec enc fuel s.filt s.raw
        s.utf8.allocated with
    | none => none
    | some r =>
      if r.err ≠ Err.ok ∧ r.err ≠ Err.nomem then
        some (r.err, { s with filt := r.filt })
      else
        some (Err.ok,
          { s with raw := r.srcRem,
                   utf8 := ⟨r.written, s.utf8.allocated⟩,
                   cursor := 0, filt := r.filt })
  else
    let kept := s.utf8.data.drop s.cursor
    let alloc' := if s.utf8.allocated / 2 < kept.length
                  then s.utf8.allocated * 2 else s.utf8.allocated
    match parserutils_filter_process_chunk dec enc fuel s.filt s.raw
        (alloc' - kept.length) with
    | none => none
    | some r =>
      if r.err ≠ Err.ok ∧ r.err ≠ Err.nomem then
        some (r.err, { s with utf8 := ⟨kept, alloc'⟩, filt := r.filt })
      else
        some (Err.ok,
          { s with raw := r.srcRem,
                   utf8 := ⟨kept ++ r.written, alloc'⟩,
                   cursor := 0, filt := r.filt })

/-- The first-chunk tail of `refill_buffer`: abort when the MIB enum is
still 0, else strip the BOM from the raw buffer, mark the first chunk done
and fall into the ordinary fill. -/
def refillFirstChunk (t : AliasTable) (dec : CodecFn ρ) (enc : CodecFn ω)
    (fuel : Nat) (s : Stream ρ ω) : Option (Err × Stream ρ ω) :=
  if s.mibenum = 0 then none
  else
    refillFill dec enc fuel
      { s with raw := strip_bomT t s.mibenum s.raw, done_first_chunk := true }

/-- The `parserutils_inputstream_refill_buffer`: on the first chunk, run the
detection callback (or default to UTF-8 with source 0), then strip the BOM
and fill; on later chunks just fill. -/
def parserutils_inputstream_refill_buffer (t : AliasTable) (dec : CodecFn ρ)
    (enc : CodecFn ω) (fuel : Nat) (csdetect : Option DetectFn)
    (s : Stream ρ ω) : Option (Err × Stream ρ ω) :=
  if s.done_first_chunk then refillFill dec enc fuel s
  else
    match csdetect with
    | some detect =>
      let r := detect s.raw
      if r.1 ≠ Err.ok then some (r.1, s)
      else refillFirstChunk t dec enc fuel
        { s with mibenum := r.2.1, encsrc := r.2.2 }
    | none =>
      refillFirstChunk t dec enc fuel
        { s with mibenum := parserutils_charset_mibenum_from_name t strUTF8,
                 encsrc := 0 }

/-- The `PARSERUTILS_INPUTSTREAM_EOF`, the EOF pseudo-character value from the
inputstream header. -/
def PARSERUTILS_INPUTSTREAM_EOF : Nat := 0xFFFFFFFF

/-- The `PARSERUTILS_INPUTSTREAM_OOD`, the out-of-data indicator value from the
inputstream header. -/
def PARSERUTILS_INPUTSTREAM_OOD : Nat := 0xFFFFFFFE

/-- The three shapes of a `peek`/`peek_slow` result: the EOF sentinel, the
OOD sentinel, or a pointer into the UTF-8 buffer (identified by its byte
offset) together with the character length written through the
out-parameter. -/
inductive PeekResult where
  | eofSentinel
  | oodSentinel
  | dataPtr (off : Nat) (len : Nat)
deriving DecidableEq, Repr

/-- The `uintptr_t` the C returns for a peek result, given the address of
`utf8->data`. -/
def peekResultValue (base : Nat) : PeekResult → Nat
  | PeekResult.eofSentinel => PARSERUTILS_INPUTSTREAM_EOF
  | PeekResult.oodSentinel => PARSERUTILS_INPUTSTREAM_OOD
  | PeekResult.dataPtr off _ => base + off

/-- The read `peek_slow` attempts after refilling: ASCII bytes have length
1; otherwise the UTF-8 byte-length routine decides, with `NEEDDATA`
mapping to EOF or OOD depending on `had_eof` and other errors to OOD. -/
def peekSlowRead (s : Stream ρ ω) (offset : Nat) : PeekResult :=
  if s.utf8.data.getD (s.cursor + offset) 0 < 0x80 then
    PeekResult.dataPtr (s.cursor + offset) 1
  else
    let r := parserutils_charset_utf8_char_byte_length
      (s.utf8.data.drop (s.cursor + offset))
    if r.1 ≠ Err.ok ∧ r.1 ≠ Err.needdata then PeekResult.oodSentinel
    else if r.1 = Err.needdata then
      (if s.had_eof then PeekResult.eofSentinel else PeekResult.oodSentinel)
    else PeekResult.dataPtr (s.cursor + offset) r.2

/-- The `parserutils_inputstream_peek_slow`: with the raw buffer empty, return
EOF or OOD according to `had_eof`; otherwise refill the UTF-8 buffer from
the raw buffer (any refill error becomes OOD) and retry the read. -/
def parserutils_inputstream_peek_slow (t : AliasTable) (dec : CodecFn ρ)
    (enc : CodecFn ω) (fuel : Nat) (csdetect : Option DetectFn)
    (s : Stream ρ ω) (offset : Nat) :
    Option (PeekResult × Stream ρ ω) :=
  if s.raw.length = 0 then
    some ((if s.had_eof then PeekResult.eofSentinel else PeekResult.oodSentinel),
      s)
  else
    match parserutils_inputstream_refill_buffer t dec enc fuel csdetect s with
    | none => none
    | some (e, s1) =>
      if e ≠ Err.ok then some (PeekResult.oodSentinel, s1)
      else some (peekSlowRead s1 offset, s1)

/-- The `parserutils_inputstream_create`: build the buffers and the UTF-8
filter; with a requested encoding whose MIB enum is nonzero, set the
filter encoding (failing creation destroys the stream unless the error is
`INVALID`) and record the MIB enum and encoding source.  The C leaves
`encsrc` uninitialised when the requested encoding is unknown; `junk`
stands for that indeterminate value. -/
def parserutils_inputstream_create (t : AliasTable) (hr : List (Handler ρ))
    (hw : List (Handler ω)) (enc : Option (List Nat)) (encsrc : Nat)
    (junk : Nat) : Option (Stream ρ ω) :=
  match parserutils_filter_create t hr hw strUTF8 with
  | none => none
  | some flt =>
    let base : Stream ρ ω :=
      { utf8 := ⟨[], 0⟩, cursor := 0, had_eof := false, raw := [],
        done_first_chunk := false, mibenum := 0, encsrc := 0, filt := flt }
    match enc with
    | none => some base
    | some e =>
      let mib := parserutils_charset_mibenum_from_name t e
      if mib ≠ 0 then
        let r := filter_set_encoding t hr flt e
        if r.1 ≠ Err.ok ∧ r.1 ≠ Err.invalid then none
        else some { base with mibenum := mib, encsrc := encsrc, filt := r.2 }
      else some { base with mibenum := mib, encsrc := junk }

/-- The `parserutils_inputstream_read_charset`: write the encoding source
through the out-parameter and return "UTF-8" when it is 0, else the
canonical name of the stream's MIB enum. -/
def parserutils_inputstream_read_charset (t : AliasTable) (s : Stream ρ ω) :
    Option (List Nat) × Nat :=
  ((if s.encsrc = 0 then some strUTF8
    else parserutils_charset_mibenum_to_name t s.mibenum), s.encsrc)

/-! ### The iconv-backed codec (`src/charset/codecs/codec_iconv.c`) -/

/-- The `errno` values `iconv(3)` can set (plus a stand-in for any
other value, on which the C falls through to `return PARSERUTILS_OK`). -/
inductive IcErrno where
  | e2big
  | einval
  | eilseq
  | eintr
deriving DecidableEq, Repr

/-- The observable outcome of one `iconv()` call on the read descriptor
with a 4-byte output window: whether the call returned a non-error count,
the `errno` otherwise, the source bytes consumed, the bytes placed in the
output window, and whether the window was filled (`sucs4 == 0`). -/
structure IconvOutcome where
  ret_ok : Bool
  errno : IcErrno
  consumed : Nat
  word : List Nat
  wrote4 : Bool
deriving DecidableEq, Repr

/-- The behaviour of the system converter for the codec's charset
(the `iconv` read descriptor), as a function of the remaining source. -/
def IconvFn : Type := List Nat → IconvOutcome

/-- The mutable state of `struct iconv_codec` relevant to decoding:
the base error mode, `inval_buf`/`inval_len` (retained incomplete input)
and `read_buf`/`read_len` (retained decoded words, 4 bytes each). -/
structure IconvCodecState where
  errormode : ErrorMode
  inval_buf : List Nat
  read_buf : List (List Nat)
deriving DecidableEq, Repr

/-- The `iconv_codec_output_decoded_char`: stash the word and report `NOMEM`
when fewer than 4 output bytes remain, else emit the 4 bytes. -/
def iconv_codec_output_decoded_char (c : IconvCodecState) (ucs4 : List Nat)
    (dstlen : Nat) : Err × List Nat × IconvCodecState :=
  if dstlen < 4 then (Err.nomem, [], { c with read_buf := [ucs4] })
  else (Err.ok, ucs4, c)

/-- The resynchronisation loop of the `EILSEQ` branch of
`iconv_codec_read_char`: step one byte at a time until the converter
accepts the input or fails with something other than `EILSEQ` (restoring
the position probed from), or skip the final byte; an empty source aborts
(`size_t` underflow then `abort()`). -/
def iconvResync (conv : IconvFn) : List Nat → Option (List Nat)
  | [] => none
  | [_] => some []
  | _ :: b :: rest =>
      let r := conv (b :: rest)
      if r.ret_ok || r.errno != IcErrno.eilseq then some (b :: rest)
      else iconvResync conv (b :: rest)

/-- The `iconv_codec_read_char`: convert a single character through `iconv`.
A successful conversion (or a full output window with progress) emits the
word and clears `inval_buf`; `E2BIG` aborts ("should never happen");
`EINVAL` retains the (≤ 32-byte, else abort) incomplete tail in
`inval_buf`, consumes it and returns `OK`; `EILSEQ` returns `INVALID` in
strict mode, else resynchronises and emits U+FFFD.  The result is
`(error, source remainder, bytes written, space left, new state)`;
`none` models an `abort()`. -/
def iconv_codec_read_char (conv : IconvFn) (c : IconvCodecState)
    (src : List Nat) (dstlen : Nat) :
    Option (Err × List Nat × List Nat × Nat × IconvCodecState) :=
  let r := conv src
  if r.ret_ok = true ∨ (r.consumed ≠ 0 ∧ r.wrote4 = true) then
    let o := iconv_codec_output_decoded_char c r.word dstlen
    if o.1 ≠ Err.ok ∧ o.1 ≠ Err.nomem then
      some (o.1, src, [], dstlen, { o.2.2 with inval_buf := [] })
    else
      some (o.1, src.drop r.consumed, o.2.1, dstlen - o.2.1.length,
        { o.2.2 with inval_buf := [] })
  else
    match r.errno with
    | IcErrno.e2big => none
    | IcErrno.einval =>
      let rem := src.drop r.consumed
      if 32 < rem.length then none
      else some (Err.ok, [], [], dstlen, { c with inval_buf := rem })
    | IcErrno.eilseq =>
      let c1 := { c with inval_buf := [] }
      if c.errormode = ErrorMode.strict then
        some (Err.invalid, src, [], dstlen, c1)
      else
        match iconvResync conv (src.drop r.consumed) with
        | none => none
        | some rem =>
          let o := iconv_codec_output_decoded_char c1 [0x00, 0x00, 0xFF, 0xFD]
            dstlen
          if o.1 ≠ Err.ok ∧ o.1 ≠ Err.nomem then
            some (o.1, src, [], dstlen, o.2.2)
          else
            some (o.1, rem, o.2.1, dstlen - o.2.1.length, o.2.2)
    | IcErrno.eintr => some (Err.ok, src.drop r.consumed, [], dstlen, c)

/-- The `while (*sourcelen > 0)` loop of `iconv_codec_decode`, with fuel
bounding the iterations. -/
def iconvDecodeLoop (conv : IconvFn) :
    Nat → IconvCodecState → List Nat → Nat → List Nat →
    Option (Err × List Nat × List Nat × Nat × IconvCodecState)
  | _, c, [], dstlen, acc => some (Err.ok, [], acc, dstlen, c)
  | 0, _, _, _, _ => none
  | fuel + 1, c, src, dstlen, acc =>
    match iconv_codec_read_char conv c src dstlen with
    | none => none
    | some (e, rem, out, dst1, c1) =>
      if e ≠ Err.ok then some (e, rem, acc ++ out, dst1, c1)
      else iconvDecodeLoop conv fuel c1 rem dst1 (acc ++ out)

/-- The `iconv_codec_decode`: drain any pending decoded words (all or nothing,
`NOMEM` when they do not fit); if an incomplete sequence is retained, top
`inval_buf` up with at most `31 - inval_len` new bytes, convert that
buffer first, advance the caller's source by the new bytes consumed
(aborting when no progress at all was made), then run the per-character
loop over the remaining source. -/
def iconv_codec_decode (conv : IconvFn) (fuel : Nat) (c : IconvCodecState)
    (src : List Nat) (dstlen : Nat) :
    Option (Err × List Nat × List Nat × Nat × IconvCodecState) :=
  if c.read_buf.length ≠ 0 ∧ dstlen < c.read_buf.length * 4 then
    some (Err.nomem, src, [], dstlen, c)
  else
    let out0 := c.read_buf.flatten
    let dst0 := dstlen - out0.length
    let c0 := { c with read_buf := [] }
    if c.inval_buf.length ≠ 0 then
      let ol := c.inval_buf.length
      let l := min (32 - ol - 1) src.length
      let buf := c.inval_buf ++ src.take l
      match iconv_codec_read_char conv c0 buf dst0 with
      | none => none
      | some (e, bufRem, out1, dst1, c1) =>
        if e ≠ Err.ok ∧ e ≠ Err.nomem then
          some (e, src, out0 ++ out1, dst1, c1)
        else
          let srcRem := src.drop (l - bufRem.length)
          if (l + ol) - bufRem.length = 0 then none
          else if e ≠ Err.ok then
            some (e, srcRem, out0 ++ out1, dst1, c1)
          else iconvDecodeLoop conv fuel c1 srcRem dst1 (out0 ++ out1)
    else iconvDecodeLoop conv fuel c0 src dst0 out0

/-- A concrete converter behaviour: UCS-4 pass-through.  Each 4-byte unit
is copied to the output window; a shorter tail is an incomplete sequence
(`EINVAL`); when more input remains after filling the window the call
reports `E2BIG` with one unit consumed, as `iconv` does. -/
def iconvUCS4 : IconvFn := fun src =>
  if src.length = 0 then ⟨true, IcErrno.eintr, 0, [], false⟩
  else if src.length < 4 then ⟨false, IcErrno.einval, 0, [], false⟩
  else if src.length = 4 then ⟨true, IcErrno.eintr, 4, src.take 4, true⟩
  else ⟨false, IcErrno.e2big, 4, src.take 4, true⟩

/-! ### Theorems -/

theorem filterStream_dropWhile (f : Nat → Nat) (s : List Nat) :
    filterStream f (s.dropWhile IS_PUNCT_OR_SPACE) = filterStream f s := by
  induction s with
  | nil => rfl
  | cons a s ih =>
    by_cases h : IS_PUNCT_OR_SPACE a
    · simpa [filterStream, List.dropWhile_cons, h] using ih
    · simp [filterStream, List.dropWhile_cons, h]

theorem filterStream_of_dropWhile_nil (f : Nat → Nat) {s : List Nat}
    (h : s.dropWhile IS_PUNCT_OR_SPACE = []) : filterStream f s = [] := by
  rw [← filterStream_dropWhile f s, h]; rfl

theorem dropWhile_nil_of_filter_nil {s : List Nat}
    (h : s.filter (fun b => !IS_PUNCT_OR_SPACE b) = []) :
    s.dropWhile IS_PUNCT_OR_SPACE = [] := by
  induction s with
  | nil => rfl
  | cons a s ih =>
    by_cases ha : IS_PUNCT_OR_SPACE a
    · simp only [List.filter_cons, ha] at h
      simpa [List.dropWhile_cons, ha] using ih (by simpa using h)
    · simp [List.filter_cons, ha] at h

theorem filterStream_cons_of_dropWhile {f : Nat → Nat} {s a : _} {t : List Nat}
    (h : s.dropWhile IS_PUNCT_OR_SPACE = a :: t) :
    filterStream f s = f a :: filterStream f t := by
  have hna : ¬ (IS_PUNCT_OR_SPACE a = true) := by
    have := List.head?_dropWhile_not IS_PUNCT_OR_SPACE s
    rw [h] at this
    simpa using this
  rw [← filterStream_dropWhile f s, h]
  simp [filterStream, List.filter_cons, hna]

theorem mask_id_of_upper {a : Nat} (h1 : 0x41 ≤ a) (h2 : a ≤ 0x5A) :
    a &&& 0xDF = a := by
  interval_cases a <;> decide

theorem mask_lower_of_upper {a : Nat} (h1 : 0x41 ≤ a) (h2 : a ≤ 0x5A) :
    (a + 0x20) &&& 0xDF = a := by
  interval_cases a <;> decide

theorem tolowerB_eq_mask {a b : Nat} (h : tolowerB a = tolowerB b) :
    a &&& 0xDF = b &&& 0xDF := by
  unfold tolowerB at h
  by_cases ha : 0x41 ≤ a ∧ a ≤ 0x5A <;> by_cases hb : 0x41 ≤ b ∧ b ≤ 0x5A
  · rw [if_pos ha, if_pos hb] at h
    obtain rfl : a = b := by omega
    rfl
  · rw [if_pos ha, if_neg hb] at h
    subst h
    rw [mask_lower_of_upper ha.1 ha.2, mask_id_of_upper ha.1 ha.2]
  · rw [if_neg ha, if_pos hb] at h
    subst h
    rw [mask_lower_of_upper hb.1 hb.2, mask_id_of_upper hb.1 hb.2]
  · rw [if_neg ha, if_neg hb] at h
    rw [h]

theorem tolowerB_ne_zero {c : Nat} (h : c ≠ 0) : tolowerB c ≠ 0 := by
  unfold tolowerB
  split <;> omega

/-- Names that `aliascmp` considers equal have identical filtered, masked
byte streams (for NUL-free byte strings). -/
theorem aliascmpLoop_hashStream {s1 s2 : List Nat} (h1 : 0 ∉ s1) (h2 : 0 ∉ s2)
    (h : aliascmpLoop s1 s2 = 0) : hashStream s1 = hashStream s2 := by
  induction s2 generalizing s1 with
  | nil =>
    rw [aliascmpLoop] at h
    split at h
    · rename_i hdw1
      rw [hashStream, filterStream_of_dropWhile_nil _ hdw1]; rfl
    · exact absurd h one_ne_zero
  | cons c s2 ih =>
    rw [aliascmpLoop] at h
    by_cases hpc : IS_PUNCT_OR_SPACE c
    · rw [if_pos hpc] at h
      have := ih h1 (fun hm => h2 (List.mem_cons_of_mem c hm)) h
      rw [this, hashStream, hashStream, filterStream, filterStream,
        List.filter_cons, hpc]
      simp
    · rw [if_neg hpc] at h
      split at h
      · exact absurd h one_ne_zero
      · rename_i hcond
        have hlow : tolowerB ((s1.dropWhile IS_PUNCT_OR_SPACE).headD 0) =
            tolowerB c := by simpa using hcond
        have hcne : c ≠ 0 := fun hc0 => h2 (hc0 ▸ List.mem_cons_self c s2)
        match ht1 : s1.dropWhile IS_PUNCT_OR_SPACE with
        | [] =>
          exfalso
          rw [ht1] at hlow
          exact tolowerB_ne_zero hcne hlow.symm
        | a :: t1rest =>
          have h1' : 0 ∉ t1rest := fun hmem =>
            h1 ((List.dropWhile_sublist _).mem
              (ht1 ▸ List.mem_cons_of_mem a hmem))
          have h2' : 0 ∉ s2 := fun hmem => h2 (List.mem_cons_of_mem c hmem)
          rw [ht1] at h
          have ihres := ih h1' h2' (by simpa using h)
          have hmask : a &&& 0xDF = c &&& 0xDF := by
            apply tolowerB_eq_mask
            rw [ht1] at hlow
            simpa using hlow
          rw [hashStream, filterStream_cons_of_dropWhile ht1,
            show filterStream (fun b => b &&& 0xDF) t1rest = hashStream t1rest
              from rfl, ihres, hmask]
          simp [hashStream, filterStream, List.filter_cons, hpc]

/-- Converse direction: equal lower-cased filtered streams compare equal
under the `aliascmp` loop. -/
theorem aliascmpLoop_of_lowStream {s1 s2 : List Nat}
    (h : lowStream s1 = lowStream s2) : aliascmpLoop s1 s2 = 0 := by
  induction s2 generalizing s1 with
  | nil =>
    have : lowStream s1 = [] := by rw [h]; rfl
    have hnil : s1.filter (fun b => !IS_PUNCT_OR_SPACE b) = [] := by
      have := congrArg List.length this
      simpa [lowStream, filterStream] using this
    rw [aliascmpLoop, if_pos (dropWhile_nil_of_filter_nil hnil)]
  | cons c s2 ih =>
    rw [aliascmpLoop]
    by_cases hpc : IS_PUNCT_OR_SPACE c
    · rw [if_pos hpc]
      apply ih
      rw [h, lowStream, lowStream, filterStream, filterStream, List.filter_cons,
        hpc]
      simp
    · rw [if_neg hpc]
      have h2 : lowStream (c :: s2) = tolowerB c :: lowStream s2 := by
        simp [lowStream, filterStream, List.filter_cons, hpc]
      rw [h2] at h
      match ht1 : s1.dropWhile IS_PUNCT_OR_SPACE with
      | [] =>
        exfalso
        rw [lowStream, filterStream_of_dropWhile_nil _ ht1] at h
        exact List.cons_ne_nil _ _ h.symm
      | a :: t1rest =>
        have hs1 : lowStream s1 = tolowerB a :: lowStream t1rest :=
          filterStream_cons_of_dropWhile ht1
        rw [hs1] at h
        have hhead : tolowerB a = tolowerB c := (List.cons_eq_cons.mp h).1
        have htail : lowStream t1rest = lowStream s2 :=
          (List.cons_eq_cons.mp h).2
        simp only [List.headD_cons, List.tail_cons, hhead, ne_eq,
          not_true_eq_false, if_false]
        exact ih htail

theorem foldl_hashStep (s : List Nat) (h : Nat) :
    s.foldl hashStep h =
      (hashStream s).foldl (fun h b => ((h * 33) % 4294967296) ^^^ b) h := by
  induction s generalizing h with
  | nil => rfl
  | cons a s ih =>
    by_cases ha : IS_PUNCT_OR_SPACE a
    · simp [hashStream, filterStream, List.filter_cons, ha, List.foldl_cons,
        hashStep, ih]
    · simp [hashStream, filterStream, List.filter_cons, ha, List.foldl_cons,
        hashStep, ih]

/-- C1: two byte strings that compare equal under `aliascmp` (the
punctuation-skipping, ASCII-case-insensitive name equality) have equal
`parserutils_charset_hash_val` hashes.  The byte strings are NUL-free, as
every name handled by the alias table is. -/
theorem c1_aliascmp_eq_implies_hash_eq (x y : List Nat)
    (hx : 0 ∉ x) (hy : 0 ∉ y) (h : aliascmp x y = 0) :
    parserutils_charset_hash_val x = parserutils_charset_hash_val y := by
  rw [aliascmp] at h
  split at h
  · exact absurd h one_ne_zero
  · have hs : hashStream x = hashStream y := aliascmpLoop_hashStream hx hy h
    rw [parserutils_charset_hash_val, parserutils_charset_hash_val,
      foldl_hashStep, foldl_hashStep, hs]

/-- Witness for C1 at the concrete names "UTF-8" and "utf8". -/
theorem c1_witness :
    parserutils_charset_hash_val [0x55, 0x54, 0x46, 0x2D, 0x38] =
      parserutils_charset_hash_val [0x75, 0x74, 0x66, 0x38] :=
  c1_aliascmp_eq_implies_hash_eq [0x55, 0x54, 0x46, 0x2D, 0x38]
    [0x75, 0x74, 0x66, 0x38] (by decide) (by decide) (by decide)

/-- A nonempty name compares equal to itself under `aliascmp`. -/
theorem aliascmp_self {n : List Nat} (h : n ≠ []) : aliascmp n n = 0 := by
  rw [aliascmp, if_neg (by simpa using h)]
  exact aliascmpLoop_of_lowStream rfl

theorem mem_getD_of_key (tab : List (List α)) (key : α → Nat)
    (hok : (List.range tab.length).all (fun h =>
      (tab.getD h []).all (fun c => key c == h)) = true)
    {x : α} (hx : x ∈ tab.flatten) : x ∈ tab.getD (key x) [] := by
  obtain ⟨l, hl, hxl⟩ := List.mem_flatten.mp hx
  obtain ⟨i, hi⟩ := List.get_of_mem hl
  have hlen : (i : Nat) < tab.length := i.2
  have hgetD : tab.getD (i : Nat) [] = l := by
    rw [List.getD_eq_getElem _ _ hlen]
    simpa [List.get_eq_getElem] using hi
  have h1 := List.all_eq_true.mp hok (i : Nat) (List.mem_range.mpr hlen)
  have h2 := List.all_eq_true.mp h1 x (by rw [hgetD]; exact hxl)
  have hkey : key x = (i : Nat) := by simpa using h2
  rw [hkey, hgetD]
  exact hxl

theorem mem_flatten_of_mem_getD (tab : List (List α)) (h : Nat)
    {x : α} (hx : x ∈ tab.getD h []) : x ∈ tab.flatten := by
  by_cases hlt : h < tab.length
  · rw [List.getD_eq_getElem _ _ hlt] at hx
    exact List.mem_flatten.mpr ⟨tab[h], List.getElem_mem hlt, hx⟩
  · rw [List.getD_eq_default _ _ (by omega)] at hx
    exact absurd hx (List.not_mem_nil x)

theorem canonNamesDistinct_spec {t : AliasTable} (h : canonNamesDistinct t = true) :
    ∀ c ∈ canonList t, ∀ c' ∈ canonList t, aliascmp c.name c'.name = 0 → c = c' := by
  intro c hc c' hc' heq
  have h1 := List.all_eq_true.mp (List.all_eq_true.mp h c hc) c' hc'
  simpa [heq] using h1

theorem canonAliasConsistent_spec {t : AliasTable}
    (h : canonAliasConsistent t = true) :
    ∀ c ∈ canonList t, ∀ a ∈ aliasList t, aliascmp c.name a.1 = 0 → c = a.2 := by
  intro c hc a ha heq
  have h1 := List.all_eq_true.mp (List.all_eq_true.mp h c hc) a ha
  simpa [heq] using h1

theorem aliasCanonsConsistent_spec {t : AliasTable}
    (h : aliasCanonsConsistent t = true) :
    ∀ a ∈ aliasList t, ∀ a' ∈ aliasList t, aliascmp a.1 a'.1 = 0 → a.2 = a'.2 := by
  intro a ha a' ha' heq
  have h1 := List.all_eq_true.mp (List.all_eq_true.mp h a ha) a' ha'
  simpa [heq] using h1

/-- C2: in a well-formed alias table (records bucketed by the hash of their
name, no two equivalent names resolving to different records — as holds for
the shipped `Aliases` file), every registered alias resolves to its
canonical record, every canonical name resolves to its own record, and a
name matching no record resolves to `none`, making
`parserutils_charset_mibenum_from_name` return `0`. -/
theorem c2_canonicalise_resolves (t : AliasTable)
    (hcb : canonBucketsOK t = true) (hab : aliasBucketsOK t = true)
    (hw1 : canonNamesDistinct t = true)
    (hw2 : canonAliasConsistent t = true)
    (hw3 : aliasCanonsConsistent t = true) :
    (∀ a ∈ aliasList t, a.1 ≠ [] →
        parserutils_charset_alias_canonicalise t a.1 = some a.2) ∧
    (∀ c ∈ canonList t, c.name ≠ [] →
        parserutils_charset_alias_canonicalise t c.name = some c) ∧
    (∀ q, (∀ c ∈ canonList t, aliascmp c.name q ≠ 0) →
          (∀ a ∈ aliasList t, aliascmp a.1 q ≠ 0) →
          parserutils_charset_alias_canonicalise t q = none ∧
          parserutils_charset_mibenum_from_name t q = 0) := by
  refine ⟨?_, ?_, ?_⟩
  · intro a ha hne
    rw [parserutils_charset_alias_canonicalise]
    cases hfind : (t.canon_tab.getD (parserutils_charset_hash_val a.1) []).find?
        (fun c => aliascmp c.name a.1 == 0) with
    | some c'' =>
      have hp : aliascmp c''.name a.1 = 0 := by
        simpa using List.find?_some hfind
      have hmem : c'' ∈ canonList t :=
        mem_flatten_of_mem_getD _ _ (List.mem_of_find?_eq_some hfind)
      have : c'' = a.2 := canonAliasConsistent_spec hw2 c'' hmem a ha hp
      simp [hfind, this]
    | none =>
      have hbucket : a ∈ t.alias_tab.getD (parserutils_charset_hash_val a.1) [] :=
        mem_getD_of_key t.alias_tab (fun r => parserutils_charset_hash_val r.1)
          hab ha
      cases hfind2 : (t.alias_tab.getD (parserutils_charset_hash_val a.1) []).find?
          (fun r => aliascmp r.1 a.1 == 0) with
      | none =>
        exfalso
        have := List.find?_eq_none.mp hfind2 a hbucket
        simp [aliascmp_self hne] at this
      | some a' =>
        have hp : aliascmp a'.1 a.1 = 0 := by
          simpa using List.find?_some hfind2
        have hmem : a' ∈ aliasList t :=
          mem_flatten_of_mem_getD _ _ (List.mem_of_find?_eq_some hfind2)
        have : a'.2 = a.2 := aliasCanonsConsistent_spec hw3 a' hmem a ha hp
        simp [hfind, hfind2, this]
  · intro c hc hne
    rw [parserutils_charset_alias_canonicalise]
    have hbucket : c ∈ t.canon_tab.getD (parserutils_charset_hash_val c.name) [] :=
      mem_getD_of_key t.canon_tab (fun r => parserutils_charset_hash_val r.name)
        hcb hc
    cases hfind : (t.canon_tab.getD (parserutils_charset_hash_val c.name) []).find?
        (fun r => aliascmp r.name c.name == 0) with
    | none =>
      exfalso
      have := List.find?_eq_none.mp hfind c hbucket
      simp [aliascmp_self hne] at this
    | some c'' =>
      have hp : aliascmp c''.name c.name = 0 := by
        simpa using List.find?_some hfind
      have hmem : c'' ∈ canonList t :=
        mem_flatten_of_mem_getD _ _ (List.mem_of_find?_eq_some hfind)
      have : c'' = c := canonNamesDistinct_spec hw1 c'' hmem c hc hp
      simp [hfind, this]
  · intro q hnc hna
    have hfind : (t.canon_tab.getD (parserutils_charset_hash_val q) []).find?
        (fun r => aliascmp r.name q == 0) = none := by
      apply List.find?_eq_none.mpr
      intro x hx
      simpa using hnc x (mem_flatten_of_mem_getD _ _ hx)
    have hfind2 : (t.alias_tab.getD (parserutils_charset_hash_val q) []).find?
        (fun r => aliascmp r.1 q == 0) = none := by
      apply List.find?_eq_none.mpr
      intro x hx
      simpa using hna x (mem_flatten_of_mem_getD _ _ hx)
    have hcanon : parserutils_charset_alias_canonicalise t q = none := by
      rw [parserutils_charset_alias_canonicalise]
      simp only [List.getD_eq_getElem?_getD] at hfind hfind2
      simp [hfind, hfind2]
    refine ⟨hcanon, ?_⟩
    rw [parserutils_charset_mibenum_from_name, hcanon]

/-- Witness for C2: in the concrete table, the alias "utf8" resolves to the
canonical record of "UTF-8". -/
theorem c2_witness :
    parserutils_charset_alias_canonicalise tbl1 strutf8 =
      some ⟨106, strUTF8⟩ :=
  (c2_canonicalise_resolves tbl1 (by decide) (by decide) (by decide)
      (by decide) (by decide)).1
    (strutf8, ⟨106, strUTF8⟩) (by decide) (by decide)

/-! ### C3: `filter_set_encoding` -/

/-- C3: `filter_set_encoding` returns `INVALID` leaving the filter
unchanged when the name does not canonicalise; returns `OK` leaving the
filter unchanged when the canonical MIB equals the current encoding;
otherwise replaces only the read codec (and the encoding setting),
returning `NOMEM` when the new read codec cannot be created; and in every
case the write codec is never changed. -/
theorem c3_filter_set_encoding (t : AliasTable) (handlers : List (Handler ρ))
    (f : Filter ρ ω) (enc : List Nat) :
    (parserutils_charset_mibenum_from_name t enc = 0 →
        filter_set_encoding t handlers f enc = (Err.invalid, f)) ∧
    (parserutils_charset_mibenum_from_name t enc ≠ 0 →
      f.settings_encoding = parserutils_charset_mibenum_from_name t enc →
        filter_set_encoding t handlers f enc = (Err.ok, f)) ∧
    (parserutils_charset_mibenum_from_name t enc ≠ 0 →
      f.settings_encoding ≠ parserutils_charset_mibenum_from_name t enc →
        (parserutils_charset_codec_create t handlers enc = none →
            filter_set_encoding t handlers f enc =
              (Err.nomem, { f with read_codec := none })) ∧
        (∀ c, parserutils_charset_codec_create t handlers enc = some c →
            filter_set_encoding t handlers f enc =
              (Err.ok,
                { f with
                    read_codec := some c,
                    settings_encoding :=
                      parserutils_charset_mibenum_from_name t enc }))) ∧
    (filter_set_encoding t handlers f enc).2.write_codec = f.write_codec := by
  refine ⟨?_, ?_, ?_, ?_⟩
  · intro h0
    rw [filter_set_encoding]
    simp [h0]
  · intro h0 heq
    rw [filter_set_encoding]
    simp [h0, heq]
  · intro h0 hne
    constructor
    · intro hcc
      rw [filter_set_encoding]
      simp [h0, hne, Ne.symm hne, hcc]
    · intro c hcc
      rw [filter_set_encoding]
      simp [h0, hne, Ne.symm hne, hcc]
  · rw [filter_set_encoding]
    by_cases h0 : parserutils_charset_mibenum_from_name t enc = 0
    · simp [h0]
    · by_cases heq : f.settings_encoding = parserutils_charset_mibenum_from_name t enc
      · simp [h0, heq]
      · cases hcc : parserutils_charset_codec_create t handlers enc with
        | none => simp [h0, heq, hcc]
        | some c => simp [h0, heq, hcc]

/-- Witness for C3: an unknown name ("X") leaves the concrete filter
unchanged with `INVALID`. -/
theorem c3_witness :
    filter_set_encoding tbl1 [trivHandler] fwit [0x58] = (Err.invalid, fwit) :=
  (c3_filter_set_encoding tbl1 [trivHandler] fwit [0x58]).1 (by decide)

/-! ### C4: the leftover path of `parserutils_filter_process_chunk` -/

/-- C4: in the leftover state, `process_chunk` re-encodes the retained
pivot tail first, and if that re-encode fails the call returns immediately
with that error, the caller's source pointer and length unchanged (no input
bytes consumed); the filter keeps its leftover marker with the advanced
pivot tail. -/
theorem c4_leftover_encode_failure (dec : CodecFn ρ) (enc : CodecFn ω)
    (fuel : Nat) (f : Filter ρ ω) (src : List Nat) (dsts : Nat) (wc : Codec ω)
    (hwc : f.write_codec = some wc) (hlo : f.leftover = true)
    (herr : (enc wc f.pivot_left dsts).err ≠ Err.ok) :
    parserutils_filter_process_chunk dec enc fuel f src dsts =
      some ⟨(enc wc f.pivot_left dsts).err, src, (enc wc f.pivot_left dsts).out,
        { f with
            write_codec := some { wc with state := (enc wc f.pivot_left dsts).st },
            pivot_left := (enc wc f.pivot_left dsts).srcRem }⟩ := by
  rw [parserutils_filter_process_chunk, hwc]
  simp [hlo, herr]

/-- Witness for C4: with a full destination, the leftover re-encode fails
with `NOMEM` and the source `[9, 9]` is returned unconsumed. -/
theorem c4_witness :
    parserutils_filter_process_chunk decAll encNomem 3 fleft [9, 9] 0 =
      some ⟨Err.nomem, [9, 9], [],
        { fleft with
            write_codec := some ⟨106, ErrorMode.loose, ()⟩,
            pivot_left := [0, 0, 0, 0x41] }⟩ :=
  c4_leftover_encode_failure decAll encNomem 3 fleft [9, 9] 0
    ⟨106, ErrorMode.loose, ()⟩ (by decide) (by decide) (by decide)

/-! ### C10: codec construction always yields `LOOSE` error mode -/

theorem codec_create_fields {σ : Type} (t : AliasTable)
    (handlers : List (Handler σ)) (charset : List Nat) (codec : Codec σ)
    (h : parserutils_charset_codec_create t handlers charset = some codec) :
    codec.errormode = ErrorMode.loose ∧
    ∃ canon, parserutils_charset_alias_canonicalise t charset = some canon ∧
      codec.mibenum = canon.mib_enum := by
  rw [parserutils_charset_codec_create] at h
  split at h
  · exact absurd h (by simp)
  · rename_i canon hc
    split at h
    · exact absurd h (by simp)
    · rename_i hd hf
      split at h
      · exact absurd h (by simp)
      · rename_i c0 hcr
        simp only [Option.some.injEq] at h
        subst h
        exact ⟨rfl, canon, hc, rfl⟩

theorem fse_read_codec_cases (t : AliasTable) (handlers : List (Handler ρ))
    (f : Filter ρ ω) (enc : List Nat) :
    (filter_set_encoding t handlers f enc).2.read_codec = f.read_codec ∨
    (filter_set_encoding t handlers f enc).2.read_codec = none ∨
    ∃ c, parserutils_charset_codec_create t handlers enc = some c ∧
      (filter_set_encoding t handlers f enc).2.read_codec = some c := by
  rw [filter_set_encoding]
  by_cases h0 : parserutils_charset_mibenum_from_name t enc = 0
  · left; simp [h0]
  · by_cases heq : f.settings_encoding = parserutils_charset_mibenum_from_name t enc
    · left; simp [h0, heq]
    · cases hcc : parserutils_charset_codec_create t handlers enc with
      | none => right; left; simp [h0, heq, hcc]
      | some c => right; right; exact ⟨c, rfl, by simp [h0, heq, hcc]⟩

/-- C10: every codec returned by `parserutils_charset_codec_create` has its
error mode initialised to `LOOSE` and its MIB enum set to the canonical
form's MIB enum, whatever handler instantiated it; and both codecs of a
freshly created filter (which never calls the error-mode setopt) are in
`LOOSE` mode. -/
theorem c10_codec_create_loose :
    (∀ (σ : Type) (t : AliasTable) (handlers : List (Handler σ))
        (charset : List Nat) (codec : Codec σ),
      parserutils_charset_codec_create t handlers charset = some codec →
      codec.errormode = ErrorMode.loose ∧
      ∃ canon, parserutils_charset_alias_canonicalise t charset = some canon ∧
        codec.mibenum = canon.mib_enum) ∧
    (∀ (ρ ω : Type) (t : AliasTable) (hr : List (Handler ρ))
        (hw : List (Handler ω)) (int_enc : List Nat) (flt : Filter ρ ω),
      parserutils_filter_create t hr hw int_enc = some flt →
      (∀ rc, flt.read_codec = some rc → rc.errormode = ErrorMode.loose) ∧
      (∀ wc, flt.write_codec = some wc → wc.errormode = ErrorMode.loose)) := by
  constructor
  · intro σ t handlers charset codec h
    exact codec_create_fields t handlers charset codec h
  · intro ρ ω t hr hw int_enc flt h
    rw [parserutils_filter_create] at h
    by_cases he : (filter_set_encoding t hr
        ({ read_codec := none, write_codec := none, leftover := false,
           pivot_left := [], settings_encoding := 0 } : Filter ρ ω)
        strUTF8).1 ≠ Err.ok
    · rw [if_pos he] at h
      exact absurd h (by simp)
    · rw [if_neg he] at h
      split at h
      · exact absurd h (by simp)
      · rename_i wc0 hwc
        simp only [Option.some.injEq] at h
        subst h
        constructor
        · intro rc hrc
          simp only at hrc
          rcases fse_read_codec_cases t hr
              ({ read_codec := none, write_codec := none, leftover := false,
                 pivot_left := [], settings_encoding := 0 } : Filter ρ ω)
              strUTF8 with
            hcase | hcase | ⟨c, hcc, hcase⟩
          · rw [hcase] at hrc; exact absurd hrc (by simp)
          · rw [hcase] at hrc; exact absurd hrc (by simp)
          · rw [hcase] at hrc
            obtain rfl : c = rc := by simpa using hrc
            exact (codec_create_fields t hr strUTF8 c hcc).1
        · intro wc hwcc
          simp only [Option.some.injEq] at hwcc
          subst hwcc
          exact (codec_create_fields t hw int_enc wc0 hwc).1

/-- Witness for C10: the codec created for "utf8" over the concrete table
is in `LOOSE` mode with the canonical MIB enum 106. -/
theorem c10_witness :
    (⟨106, ErrorMode.loose, ()⟩ : Codec Unit).errormode = ErrorMode.loose ∧
    ∃ canon, parserutils_charset_alias_canonicalise tbl1 strutf8 = some canon ∧
      (⟨106, ErrorMode.loose, ()⟩ : Codec Unit).mibenum = canon.mib_enum :=
  c10_codec_create_loose.1 Unit tbl1 [trivHandler] strutf8
    ⟨106, ErrorMode.loose, ()⟩ (by decide)

theorem take2_iff (buf : List Nat) (a b : Nat) :
    buf.take 2 = [a, b] ↔
      2 ≤ buf.length ∧ buf.getD 0 0 = a ∧ buf.getD 1 0 = b := by
  match buf with
  | [] => simp
  | [x] => simp
  | x :: y :: rest => simp [List.getD]

theorem take3_iff (buf : List Nat) (a b c : Nat) :
    buf.take 3 = [a, b, c] ↔
      3 ≤ buf.length ∧ buf.getD 0 0 = a ∧ buf.getD 1 0 = b ∧
        buf.getD 2 0 = c := by
  match buf with
  | [] => simp
  | [x] => simp
  | [x, y] => simp
  | x :: y :: z :: rest => simp [List.getD]

theorem take4_iff (buf : List Nat) (a b c d : Nat) :
    buf.take 4 = [a, b, c, d] ↔
      4 ≤ buf.length ∧ buf.getD 0 0 = a ∧ buf.getD 1 0 = b ∧
        buf.getD 2 0 = c ∧ buf.getD 3 0 = d := by
  match buf with
  | [] => simp
  | [x] => simp
  | [x, y] => simp
  | [x, y, z] => simp
  | x :: y :: z :: w :: rest => simp [List.getD]

/-- C6: with the five BOM MIB enums distinct (as in the shipped alias
table), `strip_bom` removes a leading BOM exactly when the MIB is one of
the five encodings and the buffer begins with that exact prefix, decided
solely by exact MIB match; in particular a UTF-16LE buffer beginning
`FF FE 00 00` loses exactly its 2-byte BOM, and in all other cases the
buffer is unchanged. -/
theorem c6_strip_bom (m : BomMibs)
    (hn : [m.utf8, m.utf16be, m.utf16le, m.utf32be, m.utf32le].Nodup)
    (mib : Nat) (buf : List Nat) :
    parserutils_inputstream_strip_bom m mib buf = stripBomSpec m mib buf ∧
    (mib = m.utf16le → buf.take 2 = [0xFF, 0xFE] →
      parserutils_inputstream_strip_bom m mib buf = buf.drop 2) := by
  simp only [List.nodup_cons, List.mem_cons, List.mem_singleton,
    List.not_mem_nil, or_false, not_or, List.nodup_nil, and_true] at hn
  obtain ⟨⟨d12, d13, d14, d15⟩, ⟨d23, d24, d25⟩, ⟨d34, d35⟩, d45, -⟩ := hn
  constructor
  · rw [parserutils_inputstream_strip_bom, stripBomSpec]
    by_cases h1 : mib = m.utf8
    · subst h1
      simp [take3_iff, d12, d13, d14, d15]
    · by_cases h2 : mib = m.utf16be
      · subst h2
        simp [take2_iff, Ne.symm d12, d23, d24, d25]
      · by_cases h3 : mib = m.utf16le
        · subst h3
          simp [take2_iff, Ne.symm d13, Ne.symm d23, d34, d35]
        · by_cases h4 : mib = m.utf32be
          · subst h4
            simp [take4_iff, Ne.symm d14, Ne.symm d24, Ne.symm d34, d45]
          · by_cases h5 : mib = m.utf32le
            · subst h5
              simp [take4_iff, Ne.symm d15, Ne.symm d25, Ne.symm d35,
                Ne.symm d45]
            · simp [h1, h2, h3, h4, h5]
  · intro h3 htake
    subst h3
    rw [parserutils_inputstream_strip_bom]
    rw [take2_iff] at htake
    obtain ⟨hl, h0, h1⟩ := htake
    simp only [List.getD_eq_getElem?_getD] at h0 h1
    simp [Ne.symm d13, Ne.symm d23, hl, h0, h1]

/-- Witness for C6: a UTF-16LE buffer beginning `FF FE 00 00` loses exactly
its 2-byte BOM (MIB enums as in the shipped table). -/
theorem c6_witness :
    parserutils_inputstream_strip_bom ⟨106, 1013, 1014, 1018, 1019⟩ 1014
      [0xFF, 0xFE, 0x00, 0x00] = [0x00, 0x00] :=
  (c6_strip_bom ⟨106, 1013, 1014, 1018, 1019⟩ (by decide) 1014
    [0xFF, 0xFE, 0x00, 0x00]).2 rfl (by decide)

/-- C8 counterexample: with `cursor == utf8.length` and `bytes = 1` the
claim prescribes a non-aborting no-op, but `advance` aborts — the abort
check `bytes > length - cursor` runs before the `cursor == length`
early-out. -/
theorem c8_counterexample :
    streamAtEnd.cursor = streamAtEnd.utf8.data.length ∧
    parserutils_inputstream_advance streamAtEnd 1 = none := by
  exact ⟨rfl, rfl⟩

/-- C8 (amended): `advance` aborts exactly when `bytes` exceeds the bytes
remaining after the cursor — including when the cursor is at the end of
the buffer and `bytes > 0`; otherwise it adds `bytes` to the cursor
(a no-op when the cursor is at the end, which forces `bytes = 0`). -/
theorem c8_advance_amended (s : Stream ρ ω) (bytes : Nat)
    (hinv : s.cursor ≤ s.utf8.data.length) :
    (bytes > s.utf8.data.length - s.cursor →
        parserutils_inputstream_advance s bytes = none) ∧
    (bytes ≤ s.utf8.data.length - s.cursor →
        parserutils_inputstream_advance s bytes =
          some { s with cursor := s.cursor + bytes }) := by
  constructor
  · intro h
    rw [parserutils_inputstream_advance, if_pos h]
  · intro h
    rw [parserutils_inputstream_advance, if_neg (by omega)]
    by_cases hc : s.cursor = s.utf8.data.length
    · have hb : bytes = 0 := by omega
      subst hb
      rw [if_pos hc]
      rfl
    · rw [if_neg hc]

/-- Witness for the amended C8 at a concrete mid-buffer stream. -/
theorem c8_witness :
    parserutils_inputstream_advance streamMid 1 =
      some { streamMid with cursor := 2 } :=
  (c8_advance_amended streamMid 1 (by decide)).2 (by decide)

/-- C7: on the slow path with an empty raw buffer, `peek_slow` returns the
EOF sentinel when `had_eof` is set and the OOD sentinel otherwise; with raw
data present it refills the UTF-8 buffer and retries the read (refill
errors becoming OOD); and the two sentinel values (0xFFFFFFFF, 0xFFFFFFFE)
are distinct from each other and from any data pointer that lies below
them. -/
theorem c7_peek_slow_sentinels (t : AliasTable) (dec : CodecFn ρ)
    (enc : CodecFn ω) (fuel : Nat) (csdetect : Option DetectFn)
    (s : Stream ρ ω) (offset : Nat) :
    (s.raw.length = 0 → s.had_eof = true →
      parserutils_inputstream_peek_slow t dec enc fuel csdetect s offset =
        some (PeekResult.eofSentinel, s)) ∧
    (s.raw.length = 0 → s.had_eof = false →
      parserutils_inputstream_peek_slow t dec enc fuel csdetect s offset =
        some (PeekResult.oodSentinel, s)) ∧
    (s.raw.length ≠ 0 → ∀ e s1,
      parserutils_inputstream_refill_buffer t dec enc fuel csdetect s =
        some (e, s1) →
      parserutils_inputstream_peek_slow t dec enc fuel csdetect s offset =
        some ((if e ≠ Err.ok then PeekResult.oodSentinel
               else peekSlowRead s1 offset), s1)) ∧
    (∀ base off len, base + off < PARSERUTILS_INPUTSTREAM_OOD →
      peekResultValue base (PeekResult.dataPtr off len) ≠
          PARSERUTILS_INPUTSTREAM_EOF ∧
      peekResultValue base (PeekResult.dataPtr off len) ≠
          PARSERUTILS_INPUTSTREAM_OOD) ∧
    PARSERUTILS_INPUTSTREAM_EOF ≠ PARSERUTILS_INPUTSTREAM_OOD := by
  refine ⟨?_, ?_, ?_, ?_, ?_⟩
  · intro h0 heof
    rw [parserutils_inputstream_peek_slow, if_pos h0, heof]
    rfl
  · intro h0 heof
    rw [parserutils_inputstream_peek_slow, if_pos h0, heof]
    rfl
  · intro hne e s1 href
    rw [parserutils_inputstream_peek_slow, if_neg hne, href]
    by_cases he : e = Err.ok
    · simp [he]
    · simp [he]
  · intro base off len hlt
    simp only [peekResultValue, PARSERUTILS_INPUTSTREAM_EOF,
      PARSERUTILS_INPUTSTREAM_OOD] at hlt ⊢
    omega
  · decide

/-- Witness for C7: a drained stream (empty raw buffer, EOF flagged)
yields the EOF sentinel. -/
theorem c7_witness :
    parserutils_inputstream_peek_slow tbl1 decAll encNomem 1 none
      { streamAtEnd with had_eof := true } 0 =
      some (PeekResult.eofSentinel, { streamAtEnd with had_eof := true }) :=
  (c7_peek_slow_sentinels tbl1 decAll encNomem 1 none
    { streamAtEnd with had_eof := true } 0).1 rfl rfl

/-- C9 counterexample: a stream created with the constructor encoding
"ISO-8859-1" and encoding source 5 has `done_first_chunk = false`, yet
`read_charset` reports "ISO-8859-1" with source 5 — not "UTF-8" with
source 0 as the claim states for every stream before its first chunk. -/
theorem c9_counterexample :
    ((parserutils_inputstream_create tbl1 [trivHandler] [trivHandler]
        (some strISO8859) 5 7 : Option (Stream Unit Unit)).map
      (fun s => (s.done_first_chunk,
        parserutils_inputstream_read_charset tbl1 s))) =
      some (false, (some strISO8859, 5)) ∧
    ((some strISO8859 : Option (List Nat)), (5 : Nat)) ≠
      ((some strUTF8 : Option (List Nat)), (0 : Nat)) := by
  exact ⟨by decide, by decide⟩

/-- C9 (amended): `read_charset` writes the stream's `encsrc` through the
out-parameter and reports "UTF-8" exactly when `encsrc = 0` (it never
consults `done_first_chunk`); in particular, every stream created without
a constructor encoding reports "UTF-8" with source 0 before its first
chunk is processed. -/
theorem c9_read_charset_amended :
    (∀ (ρ ω : Type) (t : AliasTable) (s : Stream ρ ω),
      (parserutils_inputstream_read_charset t s).2 = s.encsrc ∧
      (s.encsrc = 0 →
        parserutils_inputstream_read_charset t s = (some strUTF8, 0)) ∧
      (s.encsrc ≠ 0 →
        parserutils_inputstream_read_charset t s =
          (parserutils_charset_mibenum_to_name t s.mibenum, s.encsrc))) ∧
    (∀ (ρ ω : Type) (t : AliasTable) (hr : List (Handler ρ))
        (hw : List (Handler ω)) (encsrc junk : Nat) (s : Stream ρ ω),
      parserutils_inputstream_create t hr hw none encsrc junk = some s →
      s.done_first_chunk = false ∧
      parserutils_inputstream_read_charset t s = (some strUTF8, 0)) := by
  constructor
  · intro ρ ω t s
    refine ⟨rfl, ?_, ?_⟩
    · intro h0
      rw [parserutils_inputstream_read_charset, if_pos h0, h0]
    · intro h0
      rw [parserutils_inputstream_read_charset, if_neg h0]
  · intro ρ ω t hr hw encsrc junk s h
    rw [parserutils_inputstream_create] at h
    split at h
    · exact absurd h (by simp)
    · simp only [Option.some.injEq] at h
      subst h
      exact ⟨rfl, rfl⟩

/-- Witness for the amended C9: the concrete stream created over `tbl1`
with no constructor encoding. -/
theorem c9_witness :
    streamAtEnd.done_first_chunk = false ∧
    parserutils_inputstream_read_charset tbl1 streamAtEnd =
      (some strUTF8, 0) :=
  c9_read_charset_amended.2 Unit Unit tbl1 [trivHandler] [trivHandler] 9 3
    streamAtEnd (by decide)

/-- C5 counterexample: a decode call whose input is a single truncated
character returns `OK` — not `NEEDDATA` — while retaining the byte in
`inval_buf`. -/
theorem c5_counterexample :
    iconv_codec_decode iconvUCS4 4 ⟨ErrorMode.loose, [], []⟩ [0x00] 8 =
      some (Err.ok, [], [], 8, ⟨ErrorMode.loose, [0x00], []⟩) ∧
    Err.ok ≠ Err.needdata := by
  exact ⟨by decide, by decide⟩

/-- C5 (amended): when the converter reports an incomplete input sequence
(`EINVAL`), `iconv_codec_read_char` — and hence the decode call it ends —
returns `OK` (not `NEEDDATA`), retaining the whole unconsumed tail (which
is at most 32 bytes, anything longer aborting) in `inval_buf`; the next
decode call prepends the retained bytes to the new input, as the concrete
UCS-4 pass-through run shows: the bytes split `[00 00] / [00 41]` across
two calls decode to the single word `00 00 00 41`. -/
theorem c5_incomplete_input_retained :
    (∀ (conv : IconvFn) (c : IconvCodecState) (src : List Nat) (dstlen : Nat),
      (conv src).ret_ok = false → (conv src).errno = IcErrno.einval →
      (conv src).consumed = 0 → src.length ≤ 32 →
      iconv_codec_read_char conv c src dstlen =
        some (Err.ok, [], [], dstlen, { c with inval_buf := src }) ∧
      src.length ≤ 32) ∧
    (iconv_codec_decode iconvUCS4 4 ⟨ErrorMode.loose, [], []⟩
        [0x00, 0x00] 8 =
      some (Err.ok, [], [], 8, ⟨ErrorMode.loose, [0x00, 0x00], []⟩) ∧
     iconv_codec_decode iconvUCS4 4 ⟨ErrorMode.loose, [0x00, 0x00], []⟩
        [0x00, 0x41] 8 =
      some (Err.ok, [], [0x00, 0x00, 0x00, 0x41], 4,
        ⟨ErrorMode.loose, [], []⟩)) := by
  constructor
  · intro conv c src dstlen hok herr hcons hlen
    refine ⟨?_, hlen⟩
    rw [iconv_codec_read_char]
    simp only [hok, hcons, herr]
    simp [hcons, Nat.not_lt.mpr hlen]
  · exact ⟨by decide, by decide⟩

/-- Witness for the amended C5 at the concrete UCS-4 converter and a
1-byte truncated tail. -/
theorem c5_witness :
    iconv_codec_read_char iconvUCS4 ⟨ErrorMode.loose, [], []⟩ [0x00] 4 =
      some (Err.ok, [], [], 4,
        ⟨ErrorMode.loose, [0x00], []⟩) :=
  ((c5_incomplete_input_retained.1 iconvUCS4 ⟨ErrorMode.loose, [], []⟩
    [0x00] 4 (by decide) (by decide) (by decide) (by decide)).1)
